import Mathlib

/-!
Verification of the ensemble document-intelligence pipeline.

This file gives a shallow embedding of the consensus-merging core of the
repository (src/orchestrator.py) and of the CSV flattening helper
(src/export.py), and proves or refutes the frozen specification claims
about them.

Modelling conventions:
* Python/JSON values are modelled by the inductive type `JValue`.
  Numbers (int and float alike) are modelled by rationals, so arithmetic
  identities such as "merged value equals the arithmetic mean" are exact.
* A Python function that can raise an exception is modelled as returning
  `Option`; `none` stands for an uncaught exception.
* Python `Counter.most_common(1)` returns the first key, in key insertion
  order (= first occurrence order), attaining the maximal count; this is
  modelled by `pyCounterMostCommon`.
* Python dict iteration order that the source does not rely on (iteration
  over `set` objects) is modelled as first-occurrence order; no claim
  depends on that order.
-/

set_option autoImplicit false

namespace DocPipeline

universe u

variable {α : Type u}

/-- JSON-like runtime values as produced by `json.loads` in the source.
Numbers are modelled by rationals.  `bool` is kept separate from `num`
because Python `isinstance(x, (int, float))` also matches booleans, which
the merge code visibly depends on. -/
inductive JValue where
  | null : JValue
  | bool : Bool → JValue
  | num : ℚ → JValue
  | str : String → JValue
  | list : List JValue → JValue
  | obj : List (String × JValue) → JValue

/-- Python `isinstance(v, (int, float))`: true for numbers and booleans
(`bool` is a subclass of `int` in Python). -/
def isNumTag : JValue → Bool
  | .num _ => true
  | .bool _ => true
  | _ => false

/-- Python `isinstance(v, list)`. -/
def isListTag : JValue → Bool
  | .list _ => true
  | _ => false

/-- Python `isinstance(v, str)`. -/
def isStrTag : JValue → Bool
  | .str _ => true
  | _ => false

/-- Python `isinstance(v, dict)`. -/
def isObjTag : JValue → Bool
  | .obj _ => true
  | _ => false

/-- Whether a value is hashable in Python (usable as a `set` element or
`Counter` key): lists and dicts are not. -/
def isHashable : JValue → Bool
  | .list _ => false
  | .obj _ => false
  | _ => true

/-- Python `==` on scalar (hashable) values: numbers and booleans compare
equal cross-type (`True == 1`, `1 == 1.0`); distinct shapes are otherwise
unequal.  On unhashable values the merge code raises before comparing, so
structural equality there is irrelevant to the claims. -/
def pyEq : JValue → JValue → Bool
  | .null, .null => true
  | .bool a, .bool b => a == b
  | .num a, .num b => a == b
  | .bool a, .num b => (if a then (1 : ℚ) else 0) == b
  | .num a, .bool b => a == (if b then (1 : ℚ) else 0)
  | .str a, .str b => a == b
  | _, _ => false

/-- Python `int(v)`/numeric coercion used by `sum`: booleans count as 1/0;
anything that is not a number is not addable to a number (`TypeError`). -/
def toNum? : JValue → Option ℚ
  | .num q => some q
  | .bool b => some (if b then 1 else 0)
  | _ => none

/-- Python `sum(values)` starting from `0`: `none` models the `TypeError`
raised as soon as a non-addable value is encountered. -/
def pySum : List JValue → Option ℚ
  | [] => some 0
  | v :: vs =>
    match toNum? v, pySum vs with
    | some q, some s => some (q + s)
    | _, _ => none

/-- Accumulator loop for first-occurrence deduplication: keeps the first
occurrence (under `eq`) of every element, in order.  `seen` holds the
already-emitted representatives. -/
def foGo (eq : α → α → Bool) : List α → List α → List α
  | _, [] => []
  | seen, x :: xs =>
    if seen.any (fun y => eq y x) then foGo eq seen xs
    else x :: foGo eq (x :: seen) xs

/-- First-occurrence deduplication, the order in which Python `dict` /
`Counter` keys are created. -/
def firstOccsBy (eq : α → α → Bool) (l : List α) : List α :=
  foGo eq [] l

/-- The first element (leftmost) of a list attaining the maximal value of
`c`; ties are won by the earlier element. -/
def firstMaxBy (c : α → Nat) : List α → Option α
  | [] => none
  | x :: xs =>
    match firstMaxBy c xs with
    | none => some x
    | some b => if c x < c b then some b else some x

/-- Number of elements of `l` equal (under `eq`) to `x`: the count stored
by a Python `Counter` at key `x`. -/
def countOcc (eq : α → α → Bool) (x : α) (l : List α) : Nat :=
  (l.filter (fun y => eq x y)).length

/-- Python `Counter(l).most_common(1)[0][0]`: the first key, in first
occurrence order, with maximal count.  (`heapq.nlargest` is stable, and
`Counter` keys are created in first-occurrence order.) -/
def pyCounterMostCommon (eq : α → α → Bool) (l : List α) : Option α :=
  firstMaxBy (fun x => countOcc eq x l) (firstOccsBy eq l)

/-- String equality as Python `==` over `Counter`/`dict` string keys. -/
def strEq (a b : String) : Bool := a == b

/-! ## Classification ensemble (orchestrator.py, `Orchestrator.classify_ensemble`) -/

/-- One collected classification result
(`{"provider": ..., "doc_type": ..., "confidence": ...}`). -/
structure ClassificationVote where
  provider : String
  doc_type : String
  confidence : ℚ
  deriving DecidableEq

/-- `Orchestrator.classify_ensemble` after the fan-out has collected
`results` (orchestrator.py lines 370-381): empty vote list returns the
explicit no-consensus triple; otherwise the label is
`Counter(doc_types).most_common(1)[0][0]` and the confidence is
`sum(confidences) / len(confidences)`. -/
def classify_ensemble (results : List ClassificationVote) : String × ℚ × List String :=
  match results with
  | [] => ("unknown", 0, [])
  | _ :: _ =>
    let doc_types := results.map (fun r => r.doc_type)
    let confidences := results.map (fun r => r.confidence)
    ((pyCounterMostCommon strEq doc_types).getD "unknown",
     confidences.sum / (confidences.length : ℚ),
     results.map (fun r => r.provider))

/-! ## Response parsing in `LLMClients.classify` (orchestrator.py) -/

/-- Digits of a decimal literal as a natural number; `none` if the digit
list is empty or a non-digit appears. -/
def parseDigits (cs : List Char) : Option ℕ :=
  if cs = [] then none
  else if cs.all Char.isDigit then
    some (cs.foldl (fun n c => 10 * n + (c.toNat - 48)) 0)
  else none

/-- Python `float(s)` on plain decimal string literals: optional sign,
then digits with an optional fractional part ("1", "1.5", "1.", ".5").
Exponents, inf/nan and surrounding whitespace are not modelled; no claim
depends on them. -/
def parseFloatLit (s : String) : Option ℚ :=
  let cs := s.toList
  let signAndRest : ℚ × List Char :=
    match cs with
    | '-' :: r => (-1, r)
    | '+' :: r => (1, r)
    | r => (1, r)
  let sign := signAndRest.1
  match signAndRest.2.span (fun c => c != '.') with
  | (intPart, []) => (parseDigits intPart).map (fun n => sign * n)
  | (intPart, _ :: fracPart) =>
    if fracPart.any (fun c => c == '.') then none
    else
      match intPart, fracPart with
      | [], [] => none
      | [], f => (parseDigits f).map (fun n => sign * n / (10 : ℚ) ^ f.length)
      | i, [] => (parseDigits i).map (fun n => sign * n)
      | i, f =>
        match parseDigits i, parseDigits f with
        | some ni, some nf => some (sign * (ni + nf / (10 : ℚ) ^ f.length))
        | _, _ => none

/-- Python `float(v)` applied to a JSON-decoded value, as in
`float(result.get("confidence", 0.5))`: numbers pass through unchanged,
booleans become 1.0/0.0, numeric strings are parsed, and every other
shape (null, list, record) raises. -/
def pyFloat : JValue → Option ℚ
  | .num q => some q
  | .bool b => some (if b then 1 else 0)
  | .str s => parseFloatLit s
  | _ => none

/-- The response-processing tail of `LLMClients.classify`
(orchestrator.py lines 153-154, 163-164 and 174-175):
`return result.get("type", "unknown"), float(result.get("confidence", 0.5))`.
`none` models the exception raised by `float` on an unconvertible value;
that exception is what the classification node catches. -/
def classify_parse (result : List (String × JValue)) : Option (JValue × ℚ) :=
  match pyFloat ((List.lookup "confidence" result).getD (JValue.num (1/2))) with
  | some c => some ((List.lookup "type" result).getD (JValue.str "unknown"), c)
  | none => none

/-- Concrete parsed response with an out-of-range confidence, for C6. -/
def c6Resp : List (String × JValue) :=
  [("type", JValue.str "invoice"), ("confidence", JValue.num (3/2))]

/-- Concrete parsed response with no confidence key, for C6. -/
def c6RespMissing : List (String × JValue) :=
  [("type", JValue.str "invoice")]

/-- Concrete parsed response with a null confidence, for C6. -/
def c6RespBad : List (String × JValue) :=
  [("type", JValue.str "invoice"), ("confidence", JValue.null)]

/-! ## Extraction merge (orchestrator.py, `FieldMerger.merge_extractions`) -/

/-- `r.get(key)` filtered by `is not None`: Python returns `None` both for
a missing key and for an explicit `null` value, and the merge drops both. -/
def getVal (r : List (String × JValue)) (k : String) : Option JValue :=
  match List.lookup k r with
  | some JValue.null => none
  | some v => some v
  | none => none

/-- `[r.get(key) for r in results if r.get(key) is not None]`. -/
def gatherVals (results : List (List (String × JValue))) (k : String) : List JValue :=
  results.filterMap (fun r => getVal r k)

/-- The per-key merge body of `FieldMerger.merge_extractions`
(orchestrator.py lines 79-96).  `none` models a raised exception:
`sum` over a non-addable value (`TypeError`), or hashing an unhashable
value in `set`/`Counter` (`TypeError`). -/
def mergeValue (values : List JValue) : Option JValue :=
  match values with
  | [] => some JValue.null
  | sample :: _ =>
    if isNumTag sample then
      (pySum values).map (fun s => JValue.num (s / (values.length : ℚ)))
    else if isListTag sample then
      let allItems := values.flatMap (fun v => match v with | .list xs => xs | _ => [])
      if allItems.all isHashable then some (JValue.list (firstOccsBy pyEq allItems))
      else none
    else if isStrTag sample then
      if values.all isHashable then pyCounterMostCommon pyEq values
      else none
    else some sample

/-- Effectful map over a list in the `Option` monad, modelling a Python
loop that may raise at any iteration. -/
def optMapM {β : Type u} (f : α → Option β) : List α → Option (List β)
  | [] => some []
  | x :: xs =>
    match f x, optMapM f xs with
    | some y, some ys => some (y :: ys)
    | _, _ => none

/-- `FieldMerger.merge_extractions` (orchestrator.py lines 66-99).
`none` models an uncaught exception escaping the merge.  The iteration
order over `all_keys` (a Python `set`, unspecified order) is modelled as
first-occurrence order; no claim depends on it. -/
def merge_extractions (results : List (List (String × JValue))) :
    Option (List (String × JValue)) :=
  match results with
  | [] => some []
  | [r] => some r
  | _ :: _ :: _ =>
    let allKeys := firstOccsBy strEq (results.flatMap (fun r => r.map Prod.fst))
    optMapM (fun k => (mergeValue (gatherVals results k)).map (fun v => (k, v))) allKeys

/-- One collected extraction result (`{"provider": ..., "fields": ...}`). -/
structure ExtractionVote where
  provider : String
  fields : List (String × JValue)

/-- `Orchestrator.ensemble_extract` after the fan-out has collected
`results` (orchestrator.py lines 392-403). -/
def ensemble_extract (results : List ExtractionVote) :
    Option (List (String × JValue) × List String) :=
  match results with
  | [] => some ([], [])
  | _ :: _ =>
    (merge_extractions (results.map (fun r => r.fields))).map
      (fun m => (m, results.map (fun r => r.provider)))

/-- Concrete vote list used as the evaluation witness for claim C1. -/
def c1Votes : List ClassificationVote :=
  [⟨"openai", "invoice", 9/10⟩, ⟨"gemini", "invoice", 4/5⟩, ⟨"ollama", "receipt", 7/10⟩]

/-- Concrete extraction votes used in the C2 witness: the numeric-merge
example from the specification. -/
def c2Results : List (List (String × JValue)) :=
  [[("total", JValue.num 100)], [("total", JValue.num 200)], [("total", JValue.num 300)]]

/-- Concrete extraction votes used in the C4 witness. -/
def c4Results : List (List (String × JValue)) :=
  [[("total", JValue.num 100)], [("total", JValue.num 200), ("currency", JValue.str "USD")]]

/-- The merged record of `c4Results`. -/
def c4Merged : List (String × JValue) :=
  [("total", JValue.num 150), ("currency", JValue.str "USD")]

/-- Concrete extraction votes used in the C8 witness: both votes carry a
nested record under the same field. -/
def c8Results : List (List (String × JValue)) :=
  [[("cfg", JValue.obj [("a", JValue.num 1)])], [("cfg", JValue.obj [("b", JValue.num 2)])]]

/-! ## Fan-out round (orchestrator.py, routers and per-provider nodes) -/

/-- One classification node (`classify_openai` / `classify_gemini` /
`classify_ollama`, orchestrator.py lines 245-278): the provider call
either returns a parsed (label, confidence) pair or raises; the node
catches every exception and contributes an empty result list, so a
failure never escapes the node. -/
def classify_node (provider : String) (outcome : Except Unit (String × ℚ)) :
    List ClassificationVote :=
  match outcome with
  | .ok tc => [⟨provider, tc.1, tc.2⟩]
  | .error _ => []

/-- The LangGraph classification fan-out (`classification_router` with the
`operator.add` reducer on `results`): every routed provider node runs and
the per-node result lists are concatenated in collection order. -/
def run_classification (provs : List (String × Except Unit (String × ℚ))) :
    List ClassificationVote :=
  provs.flatMap (fun p => classify_node p.1 p.2)

/-- A full ensemble classification round
(`Orchestrator.classify_ensemble`): fan out over the given providers with
their call outcomes, then merge the collected votes. -/
def classify_ensemble_run (provs : List (String × Except Unit (String × ℚ))) :
    String × ℚ × List String :=
  classify_ensemble (run_classification provs)

/-- Whether a provider call outcome succeeded. -/
def outcomeOk : Except Unit (String × ℚ) → Bool
  | .ok _ => true
  | .error _ => false

/-- Concrete provider round used as the evaluation witness for claim C7:
one configured provider whose call raises. -/
def c7Provs : List (String × Except Unit (String × ℚ)) :=
  [("openai", Except.error ())]

/-! ## CSV flattening (export.py, `flatten_dict`) -/

/-- Minimal JSON string escaping: backslash and double quote.  Control
character escaping is not modelled; no claim depends on how individual
characters are rendered. -/
def escapeJson (s : String) : String :=
  String.mk (s.toList.flatMap (fun c =>
    if c = '\\' then ['\\', '\\']
    else if c = '"' then ['\\', '"']
    else [c]))

/-- Number rendering of `json.dumps`: integers print without a decimal
point; the rendering of non-integral rationals abstracts Python float
repr, and no claim depends on the digits produced. -/
def numRepr (q : ℚ) : String :=
  if q.den = 1 then toString q.num
  else toString q.num ++ "/" ++ toString q.den

mutual

/-- `json.dumps(v)` with the json module default separators. -/
def jsonDumps : JValue → String
  | .null => "null"
  | .bool true => "true"
  | .bool false => "false"
  | .num q => numRepr q
  | .str s => "\"" ++ escapeJson s ++ "\""
  | .list xs => "[" ++ jsonDumpsList xs ++ "]"
  | .obj fs => "\x7b" ++ jsonDumpsObj fs ++ "\x7d"

/-- Comma-joined serialization of the elements of a JSON array. -/
def jsonDumpsList : List JValue → String
  | [] => ""
  | [v] => jsonDumps v
  | v :: vs => jsonDumps v ++ ", " ++ jsonDumpsList vs

/-- Comma-joined serialization of the entries of a JSON object. -/
def jsonDumpsObj : List (String × JValue) → String
  | [] => ""
  | [(k, v)] => "\"" ++ escapeJson k ++ "\": " ++ jsonDumps v
  | (k, v) :: fs =>
    "\"" ++ escapeJson k ++ "\": " ++ jsonDumps v ++ ", " ++ jsonDumpsObj fs

end

/-- The joined key: `f"{parent_key}{sep}{k}" if parent_key else k`. -/
def joinKey (parent sep k : String) : String :=
  if parent = "" then k else parent ++ sep ++ k

/-- Python `dict(items)` on a key-value pair list: one entry per distinct
key, positioned at the key's first occurrence, holding the value of the
key's last occurrence. -/
def pyDict : List (String × JValue) → List (String × JValue)
  | [] => []
  | (k, v) :: rest =>
    match (rest.filter (fun p => p.1 == k)).getLast? with
    | some q => (k, q.2) :: pyDict (rest.filter (fun p => p.1 != k))
    | none => (k, v) :: pyDict (rest.filter (fun p => p.1 != k))
termination_by l => l.length
decreasing_by
  all_goals
    simp only [List.length_cons]
    exact Nat.lt_succ_of_le (List.length_filter_le _ _)

/-- The `items` list built by `flatten_dict` before the final
`dict(items)` (export.py lines 91-103): recursion into a nested dict goes
through `flatten_dict` itself (the source extends `items` with
`flatten_dict(v, new_key, sep=sep).items()`, which is already
deduplicated), list values are serialized with `json.dumps`, and every
other value passes through under the joined key. -/
def flatItems : List (String × JValue) → String → String → List (String × JValue)
  | [], _, _ => []
  | (k, JValue.obj o) :: rest, parent, sep =>
    pyDict (flatItems o (joinKey parent sep k) sep) ++ flatItems rest parent sep
  | (k, JValue.list xs) :: rest, parent, sep =>
    (joinKey parent sep k, JValue.str (jsonDumps (JValue.list xs))) ::
      flatItems rest parent sep
  | (k, v) :: rest, parent, sep =>
    (joinKey parent sep k, v) :: flatItems rest parent sep
termination_by l _ _ => sizeOf l

/-- `flatten_dict(d, parent_key, sep)` (export.py lines 79-103). -/
def flatten_dict (d : List (String × JValue)) (parent sep : String) :
    List (String × JValue) :=
  pyDict (flatItems d parent sep)

/-- Concrete nested document used as the evaluation witness for C10. -/
def c10Dict : List (String × JValue) :=
  [("x", JValue.num 3),
   ("meta", JValue.obj [("y", JValue.str "z")]),
   ("tags", JValue.list [JValue.num 1])]

/-! ## Helper lemmas about the Counter model -/

theorem foGo_subset (eq : α → α → Bool) (l : List α) :
    ∀ seen, ∀ x ∈ foGo eq seen l, x ∈ l := by
  induction l with
  | nil => intro seen x hx; simp [foGo] at hx
  | cons a as ih =>
    intro seen x hx
    simp only [foGo] at hx
    split at hx
    · exact List.mem_cons_of_mem a (ih seen x hx)
    · rcases List.mem_cons.mp hx with h | h
      · exact h ▸ List.mem_cons_self a as
      · exact List.mem_cons_of_mem a (ih (a :: seen) x h)

theorem foGo_complete (eq : α → α → Bool)
    (heq : ∀ a b : α, eq a b = true ↔ a = b) (l : List α) :
    ∀ seen, ∀ x ∈ l, x ∈ seen ∨ x ∈ foGo eq seen l := by
  induction l with
  | nil => intro seen x hx; simp at hx
  | cons a as ih =>
    intro seen x hx
    simp only [foGo]
    rcases List.mem_cons.mp hx with h | h
    · subst h
      by_cases hs : seen.any (fun y => eq y x) = true
      · left
        rcases List.any_eq_true.mp hs with ⟨y, hy, hyx⟩
        exact ((heq y x).mp hyx) ▸ hy
      · right
        rw [if_neg hs]
        exact List.mem_cons_self x _
    · by_cases hs : seen.any (fun y => eq y a) = true
      · rw [if_pos hs]
        exact ih seen x h
      · rw [if_neg hs]
        rcases ih (a :: seen) x h with h2 | h2
        · rcases List.mem_cons.mp h2 with h3 | h3
          · exact Or.inr (h3 ▸ List.mem_cons_self a _)
          · exact Or.inl h3
        · exact Or.inr (List.mem_cons_of_mem a h2)

theorem firstMaxBy_mem (c : α → Nat) (l : List α) :
    ∀ m, firstMaxBy c l = some m → m ∈ l := by
  induction l with
  | nil => intro m hm; simp [firstMaxBy] at hm
  | cons a as ih =>
    intro m hm
    cases h : firstMaxBy c as with
    | none =>
      simp only [firstMaxBy, h, Option.some_inj] at hm
      exact hm ▸ List.mem_cons_self a as
    | some b =>
      simp only [firstMaxBy, h] at hm
      by_cases hlt : c a < c b
      · rw [if_pos hlt, Option.some_inj] at hm
        exact List.mem_cons_of_mem a (hm ▸ ih b h)
      · rw [if_neg hlt, Option.some_inj] at hm
        exact hm ▸ List.mem_cons_self a as

theorem firstMaxBy_eq_none (c : α → Nat) (l : List α)
    (h : firstMaxBy c l = none) : l = [] := by
  cases l with
  | nil => rfl
  | cons a as =>
    exfalso
    cases h2 : firstMaxBy c as with
    | none => simp [firstMaxBy, h2] at h
    | some b =>
      simp only [firstMaxBy, h2] at h
      by_cases hlt : c a < c b
      · rw [if_pos hlt] at h
        exact Option.noConfusion h
      · rw [if_neg hlt] at h
        exact Option.noConfusion h

theorem firstMaxBy_le (c : α → Nat) (l : List α) :
    ∀ m, firstMaxBy c l = some m → ∀ k ∈ l, c k ≤ c m := by
  induction l with
  | nil => intro m hm; simp [firstMaxBy] at hm
  | cons a as ih =>
    intro m hm k hk
    cases h : firstMaxBy c as with
    | none =>
      simp only [firstMaxBy, h, Option.some_inj] at hm
      cases hm
      rcases List.mem_cons.mp hk with h2 | h2
      · exact h2 ▸ le_refl _
      · rw [firstMaxBy_eq_none c as h] at h2
        simp at h2
    | some b =>
      simp only [firstMaxBy, h] at hm
      by_cases hlt : c a < c b
      · rw [if_pos hlt, Option.some_inj] at hm
        rw [hm] at h hlt
        rcases List.mem_cons.mp hk with h2 | h2
        · exact h2 ▸ le_of_lt hlt
        · exact ih m h k h2
      · rw [if_neg hlt, Option.some_inj] at hm
        rw [← hm]
        rcases List.mem_cons.mp hk with h2 | h2
        · exact h2 ▸ le_refl _
        · exact le_trans (ih b h k h2) (Nat.le_of_not_lt hlt)

theorem eqfn_false_of_ne (eq : α → α → Bool)
    (heq : ∀ a b : α, eq a b = true ↔ a = b) {a b : α} (h : a ≠ b) :
    eq a b = false := by
  cases hc : eq a b
  · rfl
  · exact absurd ((heq a b).mp hc) h

theorem not_eqfn_true_of_ne (eq : α → α → Bool)
    (heq : ∀ a b : α, eq a b = true ↔ a = b) {a b : α} (h : a ≠ b) :
    (!(eq a b)) = true := by
  rw [eqfn_false_of_ne eq heq h]
  rfl

theorem firstMaxBy_takeWhile_lt (eq : α → α → Bool)
    (heq : ∀ a b : α, eq a b = true ↔ a = b) (c : α → Nat) (l : List α) :
    ∀ m, firstMaxBy c l = some m →
      ∀ k ∈ l.takeWhile (fun y => !(eq y m)), c k < c m := by
  induction l with
  | nil => intro m hm; simp [firstMaxBy] at hm
  | cons a as ih =>
    intro m hm k hk
    cases h : firstMaxBy c as with
    | none =>
      simp only [firstMaxBy, h, Option.some_inj] at hm
      have hra : eq a m = true := (heq a m).mpr hm
      rw [List.takeWhile_cons, hra] at hk
      simp at hk
    | some b =>
      simp only [firstMaxBy, h] at hm
      by_cases hlt : c a < c b
      · rw [if_pos hlt, Option.some_inj] at hm
        rw [hm] at h hlt
        have ham : a ≠ m := fun hEq => lt_irrefl (c a) (hEq ▸ hlt)
        rw [List.takeWhile_cons, not_eqfn_true_of_ne eq heq ham] at hk
        simp only [if_true] at hk
        rcases List.mem_cons.mp hk with h2 | h2
        · exact h2 ▸ hlt
        · exact ih m h k h2
      · rw [if_neg hlt, Option.some_inj] at hm
        have hra : eq a m = true := (heq a m).mpr hm
        rw [List.takeWhile_cons, hra] at hk
        simp at hk

theorem foGo_takeWhile_lt (eq : α → α → Bool)
    (heq : ∀ a b : α, eq a b = true ↔ a = b) (c : α → Nat) (m : α) (l : List α) :
    ∀ seen, m ∉ seen → (∀ y ∈ seen, c y < c m) →
      m ∈ foGo eq seen l →
      (∀ k ∈ (foGo eq seen l).takeWhile (fun y => !(eq y m)), c k < c m) →
      ∀ k ∈ l.takeWhile (fun y => !(eq y m)), c k < c m := by
  induction l with
  | nil => intro seen _ _ _ _ k hk; simp at hk
  | cons a as ih =>
    intro seen hnm hseen hmem htw k hk
    by_cases hs : seen.any (fun y => eq y a) = true
    · -- a duplicates an already-seen element and is skipped by foGo
      have haseen : a ∈ seen := by
        rcases List.any_eq_true.mp hs with ⟨y, hy, hya⟩
        exact ((heq y a).mp hya) ▸ hy
      have hfo : foGo eq seen (a :: as) = foGo eq seen as := by
        simp only [foGo, if_pos hs]
      have ham : a ≠ m := fun hEq => hnm (hEq ▸ haseen)
      rw [List.takeWhile_cons, not_eqfn_true_of_ne eq heq ham] at hk
      simp only [if_true] at hk
      rcases List.mem_cons.mp hk with h2 | h2
      · exact h2 ▸ hseen a haseen
      · exact ih seen hnm hseen (hfo ▸ hmem) (hfo ▸ htw) k h2
    · have hfo : foGo eq seen (a :: as) = a :: foGo eq (a :: seen) as := by
        simp only [foGo, if_neg hs]
      by_cases ham : a = m
      · subst ham
        have hra : eq a a = true := (heq a a).mpr rfl
        rw [List.takeWhile_cons, hra] at hk
        simp at hk
      · have hpa : (!(eq a m)) = true := not_eqfn_true_of_ne eq heq ham
        have hca : c a < c m := by
          apply htw a
          rw [hfo, List.takeWhile_cons, hpa]
          simp only [if_true]
          exact List.mem_cons_self a _
        have hmem2 : m ∈ foGo eq (a :: seen) as := by
          rw [hfo] at hmem
          rcases List.mem_cons.mp hmem with h2 | h2
          · exact absurd h2.symm ham
          · exact h2
        have htw2 : ∀ k2 ∈ (foGo eq (a :: seen) as).takeWhile (fun y => !(eq y m)),
            c k2 < c m := by
          intro k2 hk2
          apply htw k2
          rw [hfo, List.takeWhile_cons, hpa]
          simp only [if_true]
          exact List.mem_cons_of_mem a hk2
        have hnm2 : m ∉ a :: seen := by
          intro hc
          rcases List.mem_cons.mp hc with h3 | h3
          · exact ham h3.symm
          · exact hnm h3
        have hseen2 : ∀ y ∈ a :: seen, c y < c m := by
          intro y hy
          rcases List.mem_cons.mp hy with h3 | h3
          · exact h3 ▸ hca
          · exact hseen y h3
        rw [List.takeWhile_cons, hpa] at hk
        simp only [if_true] at hk
        rcases List.mem_cons.mp hk with h2 | h2
        · exact h2 ▸ hca
        · exact ih (a :: seen) hnm2 hseen2 hmem2 htw2 k h2

theorem strEq_iff (a b : String) : strEq a b = true ↔ a = b := by
  simp [strEq]

/-! ## Claim C1: classification merge -/

/-- C1: for every non-empty list of classification votes, the merged label
is the most frequent label among the votes (every label occurring strictly
before the first occurrence of the merged label has strictly fewer votes,
so ties are broken by the first label encountered in collection order),
and the merged confidence is exactly the arithmetic mean of all the votes
confidence values, regardless of which label each vote chose. -/
theorem C1_classification_merge (votes : List ClassificationVote) (h : votes ≠ []) :
    (classify_ensemble votes).1 ∈ votes.map (fun r => r.doc_type) ∧
    (∀ l ∈ votes.map (fun r => r.doc_type),
      countOcc strEq l (votes.map (fun r => r.doc_type)) ≤
        countOcc strEq (classify_ensemble votes).1 (votes.map (fun r => r.doc_type))) ∧
    (∀ l ∈ (votes.map (fun r => r.doc_type)).takeWhile
        (fun y => !(strEq y (classify_ensemble votes).1)),
      countOcc strEq l (votes.map (fun r => r.doc_type)) <
        countOcc strEq (classify_ensemble votes).1 (votes.map (fun r => r.doc_type))) ∧
    (classify_ensemble votes).2.1 =
      (votes.map (fun r => r.confidence)).sum / (votes.length : ℚ) := by
  obtain ⟨v, vs, rfl⟩ : ∃ v vs, votes = v :: vs := by
    cases votes with
    | nil => exact absurd rfl h
    | cons v vs => exact ⟨v, vs, rfl⟩
  have hval : classify_ensemble (v :: vs) =
      ((pyCounterMostCommon strEq ((v :: vs).map (fun r => r.doc_type))).getD "unknown",
       ((v :: vs).map (fun r => r.confidence)).sum /
         ((((v :: vs).map (fun r => r.confidence)).length : ℕ) : ℚ),
       (v :: vs).map (fun r => r.provider)) := rfl
  have hfo : firstOccsBy strEq ((v :: vs).map (fun r => r.doc_type)) =
      v.doc_type :: foGo strEq [v.doc_type] (vs.map (fun r => r.doc_type)) := by
    simp [firstOccsBy, foGo]
  obtain ⟨m, hm⟩ : ∃ m,
      firstMaxBy (fun x => countOcc strEq x ((v :: vs).map (fun r => r.doc_type)))
        (firstOccsBy strEq ((v :: vs).map (fun r => r.doc_type))) = some m := by
    cases h2 : firstMaxBy (fun x => countOcc strEq x ((v :: vs).map (fun r => r.doc_type)))
        (firstOccsBy strEq ((v :: vs).map (fun r => r.doc_type))) with
    | none =>
      have h3 := firstMaxBy_eq_none _ _ h2
      rw [hfo] at h3
      exact absurd h3 (by simp)
    | some b => exact ⟨b, rfl⟩
  have hpc : pyCounterMostCommon strEq ((v :: vs).map (fun r => r.doc_type)) = some m := by
    simpa [pyCounterMostCommon] using hm
  have hlabel : (classify_ensemble (v :: vs)).1 = m := by
    rw [hval, hpc]
    rfl
  refine ⟨?_, ?_, ?_, ?_⟩
  · rw [hlabel]
    exact foGo_subset strEq _ [] m (firstMaxBy_mem _ _ m hm)
  · intro l hl
    rw [hlabel]
    have h2 := foGo_complete strEq strEq_iff (List.map (fun r => r.doc_type) (v :: vs)) [] l hl
    have h3 : l ∈ firstOccsBy strEq (List.map (fun r => r.doc_type) (v :: vs)) := by
      rcases h2 with h4 | h4
      · simp at h4
      · exact h4
    exact firstMaxBy_le _ _ m hm l h3
  · intro l hl
    rw [hlabel] at hl ⊢
    exact foGo_takeWhile_lt strEq strEq_iff
      (fun x => countOcc strEq x (List.map (fun r => r.doc_type) (v :: vs))) m
      (List.map (fun r => r.doc_type) (v :: vs)) []
      (by simp) (by simp)
      (firstMaxBy_mem _ _ m hm)
      (firstMaxBy_takeWhile_lt strEq strEq_iff _ _ m hm)
      l hl
  · rw [hval]
    simp

/-- Evaluation witness for C1 at a concrete three-provider vote list. -/
theorem C1_classification_merge_witness :
    c1Votes ≠ [] ∧
    ((classify_ensemble c1Votes).1 ∈ c1Votes.map (fun r => r.doc_type) ∧
    (∀ l ∈ c1Votes.map (fun r => r.doc_type),
      countOcc strEq l (c1Votes.map (fun r => r.doc_type)) ≤
        countOcc strEq (classify_ensemble c1Votes).1 (c1Votes.map (fun r => r.doc_type))) ∧
    (∀ l ∈ (c1Votes.map (fun r => r.doc_type)).takeWhile
        (fun y => !(strEq y (classify_ensemble c1Votes).1)),
      countOcc strEq l (c1Votes.map (fun r => r.doc_type)) <
        countOcc strEq (classify_ensemble c1Votes).1 (c1Votes.map (fun r => r.doc_type))) ∧
    (classify_ensemble c1Votes).2.1 =
      (c1Votes.map (fun r => r.confidence)).sum / (c1Votes.length : ℚ)) :=
  ⟨by simp [c1Votes], C1_classification_merge c1Votes (by simp [c1Votes])⟩

/-! ## Claim C3: empty vote lists -/

/-- C3: merging an empty vote list never raises: ensemble classification
with zero successful votes returns label "unknown", confidence 0.0 and an
empty contributing-providers list, and ensemble extraction with zero
successful votes returns an empty field map and an empty
contributing-providers list. -/
theorem C3_empty_merge :
    classify_ensemble [] = ("unknown", 0, []) ∧
    ensemble_extract [] = some ([], []) ∧
    merge_extractions [] = some [] := by
  refine ⟨rfl, rfl, rfl⟩

/-! ## Claim C9: single-vote identity -/

/-- C9: merging a single-element vote list is the identity on the payload:
one classification vote yields exactly its label and confidence, and one
extraction vote yields its field map unchanged. -/
theorem C9_single_vote_identity (v : ClassificationVote) (p : String)
    (f : List (String × JValue)) :
    classify_ensemble [v] = (v.doc_type, v.confidence, [v.provider]) ∧
    merge_extractions [f] = some f ∧
    ensemble_extract [⟨p, f⟩] = some (f, [p]) := by
  refine ⟨?_, rfl, rfl⟩
  simp [classify_ensemble, pyCounterMostCommon, firstOccsBy, foGo, firstMaxBy]

/-! ## Claims C5 and C7: fan-out failure isolation -/

theorem run_classification_cons (p : String × Except Unit (String × ℚ))
    (ps : List (String × Except Unit (String × ℚ))) :
    run_classification (p :: ps) = classify_node p.1 p.2 ++ run_classification ps := rfl

theorem run_classification_filter_ok (provs : List (String × Except Unit (String × ℚ))) :
    run_classification (provs.filter (fun p => outcomeOk p.2)) = run_classification provs := by
  induction provs with
  | nil => rfl
  | cons p ps ih =>
    obtain ⟨name, outcome⟩ := p
    cases outcome with
    | ok tc =>
      have hf : List.filter (fun p => outcomeOk p.2) ((name, Except.ok tc) :: ps) =
          (name, Except.ok tc) :: List.filter (fun p => outcomeOk p.2) ps := by
        rw [List.filter_cons]
        rfl
      rw [hf]
      simp only [run_classification_cons]
      rw [ih]
    | error e =>
      have hf : List.filter (fun p => outcomeOk p.2) ((name, Except.error e) :: ps) =
          List.filter (fun p => outcomeOk p.2) ps := by
        rw [List.filter_cons]
        rfl
      rw [hf, ih]
      rfl

theorem run_classification_providers (provs : List (String × Except Unit (String × ℚ))) :
    (run_classification provs).map (fun r => r.provider) =
      (provs.filter (fun p => outcomeOk p.2)).map Prod.fst := by
  induction provs with
  | nil => rfl
  | cons p ps ih =>
    obtain ⟨name, outcome⟩ := p
    cases outcome with
    | ok tc =>
      have hf : List.filter (fun p => outcomeOk p.2) ((name, Except.ok tc) :: ps) =
          (name, Except.ok tc) :: List.filter (fun p => outcomeOk p.2) ps := by
        rw [List.filter_cons]
        rfl
      rw [run_classification_cons, hf, List.map_append, List.map_cons, ih]
      rfl
    | error e =>
      have hf : List.filter (fun p => outcomeOk p.2) ((name, Except.error e) :: ps) =
          List.filter (fun p => outcomeOk p.2) ps := by
        rw [List.filter_cons]
        rfl
      rw [run_classification_cons, hf]
      exact ih

theorem classify_ensemble_providers (rs : List ClassificationVote) :
    (classify_ensemble rs).2.2 = rs.map (fun r => r.provider) := by
  cases rs <;> rfl

theorem length_filter_add_length_filter_not {β : Type u} (p : β → Bool) (l : List β) :
    (l.filter p).length + (l.filter (fun x => !(p x))).length = l.length := by
  induction l with
  | nil => rfl
  | cons a as ih =>
    cases h : p a <;> simp [List.filter_cons, h] <;> omega

/-- C5: a failure inside a single provider call never escapes to the
caller: the round result is a total function of the outcomes, equals the
round run over only the successful providers, the contributing-providers
list is exactly the providers whose call succeeded (in collection order),
and its length is the provider count minus the number of failures. -/
theorem C5_failure_isolation (provs : List (String × Except Unit (String × ℚ))) :
    classify_ensemble_run provs =
      classify_ensemble_run (provs.filter (fun p => outcomeOk p.2)) ∧
    (classify_ensemble_run provs).2.2 =
      (provs.filter (fun p => outcomeOk p.2)).map Prod.fst ∧
    (classify_ensemble_run provs).2.2.length +
      (provs.filter (fun p => !(outcomeOk p.2))).length = provs.length := by
  have h2 : (classify_ensemble_run provs).2.2 =
      (provs.filter (fun p => outcomeOk p.2)).map Prod.fst := by
    rw [classify_ensemble_run, classify_ensemble_providers,
      run_classification_providers]
  refine ⟨?_, h2, ?_⟩
  · rw [classify_ensemble_run, classify_ensemble_run, run_classification_filter_ok]
  · rw [h2, List.length_map]
    exact length_filter_add_length_filter_not _ provs

theorem run_classification_all_fail (provs : List (String × Except Unit (String × ℚ)))
    (hall : ∀ p ∈ provs, outcomeOk p.2 = false) :
    run_classification provs = [] := by
  induction provs with
  | nil => rfl
  | cons p ps ih =>
    have hp := hall p (List.mem_cons_self p ps)
    have hrest : run_classification ps = [] :=
      ih (fun q hq => hall q (List.mem_cons_of_mem p hq))
    obtain ⟨name, outcome⟩ := p
    rw [run_classification_cons, hrest, List.append_nil]
    cases outcome with
    | ok tc => simp [outcomeOk] at hp
    | error e => rfl

/-- C7 counterexample: the round over an empty provider set returns the
very same value as a round in which providers ran and every call failed,
so an empty provider set is not surfaced as a typed failure
distinguishable from total call failure. -/
theorem C7_counterexample :
    classify_ensemble_run [] = ("unknown", 0, []) ∧
    classify_ensemble_run
      [("openai", Except.error ()), ("gemini", Except.error ()),
       ("ollama", Except.error ())] = ("unknown", 0, []) :=
  ⟨rfl, rfl⟩

/-- C7 amended: an empty active provider set is not reported through a
typed failure: the round returns the ordinary empty-consensus value
("unknown", 0.0, no providers), identical to the value returned when
every provider ran and failed. -/
theorem C7_no_providers_amended (provs : List (String × Except Unit (String × ℚ)))
    (hall : ∀ p ∈ provs, outcomeOk p.2 = false) :
    classify_ensemble_run provs = ("unknown", 0, []) ∧
    classify_ensemble_run provs = classify_ensemble_run [] := by
  rw [classify_ensemble_run, run_classification_all_fail provs hall]
  exact ⟨rfl, rfl⟩

/-- Evaluation witness for the amended C7 at a concrete failing round. -/
theorem C7_no_providers_amended_witness :
    (∀ p ∈ c7Provs, outcomeOk p.2 = false) ∧
    (classify_ensemble_run c7Provs = ("unknown", 0, []) ∧
     classify_ensemble_run c7Provs = classify_ensemble_run []) :=
  ⟨by simp [c7Provs, outcomeOk],
   C7_no_providers_amended c7Provs (by simp [c7Provs, outcomeOk])⟩

/-! ## Helper lemmas about the extraction merge -/

theorem optMapM_cons_some {γ : Type u} (f : α → Option γ) (x : α) (xs : List α)
    (m : List γ) (h : optMapM f (x :: xs) = some m) :
    ∃ y ys, f x = some y ∧ optMapM f xs = some ys ∧ m = y :: ys := by
  cases hg : f x with
  | none =>
    simp only [optMapM, hg] at h
    exact Option.noConfusion h
  | some y =>
    cases hrec : optMapM f xs with
    | none =>
      simp only [optMapM, hg, hrec] at h
      exact Option.noConfusion h
    | some ys =>
      simp only [optMapM, hg, hrec, Option.some_inj] at h
      exact ⟨y, ys, rfl, rfl, h.symm⟩

theorem optMapM_keys {β : Type u} (g : α → Option β) :
    ∀ (ks : List α) (m : List (α × β)),
      optMapM (fun k => (g k).map (fun v => (k, v))) ks = some m →
      m.map Prod.fst = ks := by
  intro ks
  induction ks with
  | nil =>
    intro m hm
    simp only [optMapM, Option.some_inj] at hm
    rw [← hm]
    rfl
  | cons k ks ih =>
    intro m hm
    obtain ⟨y, ys, hy, hys, rfl⟩ := optMapM_cons_some _ k ks m hm
    cases hgk : g k with
    | none => rw [hgk] at hy; simp at hy
    | some v =>
      rw [hgk] at hy
      simp only [Option.map_some', Option.some_inj] at hy
      rw [List.map_cons, ← hy, ih ys hys]

theorem optMapM_mem_of {β : Type u} (g : α → Option β) :
    ∀ (ks : List α) (m : List (α × β)),
      optMapM (fun k => (g k).map (fun v => (k, v))) ks = some m →
      ∀ k v, k ∈ ks → g k = some v → (k, v) ∈ m := by
  intro ks
  induction ks with
  | nil => intro m _ k v hk; simp at hk
  | cons a ks ih =>
    intro m hm k v hk hv
    obtain ⟨y, ys, hy, hys, rfl⟩ := optMapM_cons_some _ a ks m hm
    rcases List.mem_cons.mp hk with h1 | h1
    · subst h1
      rw [hv] at hy
      simp only [Option.map_some', Option.some_inj] at hy
      rw [← hy]
      exact List.mem_cons_self _ _
    · exact List.mem_cons_of_mem y (ih ys hys k v h1 hv)

theorem optMapM_none {β : Type u} (g : α → Option β) :
    ∀ (ks : List α) (k : α), k ∈ ks → g k = none →
      optMapM (fun k => (g k).map (fun v => (k, v))) ks = none := by
  intro ks
  induction ks with
  | nil => intro k hk; simp at hk
  | cons a ks ih =>
    intro k hk hnone
    rcases List.mem_cons.mp hk with h1 | h1
    · subst h1
      simp only [optMapM, hnone, Option.map_none']
    · have hrec := ih k h1 hnone
      cases hfa : g a with
      | none => simp only [optMapM, hfa, Option.map_none']
      | some y => simp only [optMapM, hfa, Option.map_some', hrec]

theorem merge_extractions_eq (r1 r2 : List (String × JValue))
    (rest : List (List (String × JValue))) :
    merge_extractions (r1 :: r2 :: rest) =
      optMapM
        (fun k => (mergeValue (gatherVals (r1 :: r2 :: rest) k)).map (fun v => (k, v)))
        (firstOccsBy strEq ((r1 :: r2 :: rest).flatMap (fun r => r.map Prod.fst))) := rfl

theorem mem_allKeys_iff (results : List (List (String × JValue))) (k : String) :
    k ∈ firstOccsBy strEq (results.flatMap (fun r => r.map Prod.fst)) ↔
      ∃ r ∈ results, k ∈ r.map Prod.fst := by
  constructor
  · intro h
    have h2 := foGo_subset strEq _ [] k h
    rcases List.mem_flatMap.mp h2 with ⟨r, hr, hk⟩
    exact ⟨r, hr, hk⟩
  · rintro ⟨r, hr, hk⟩
    have h2 : k ∈ results.flatMap (fun r => r.map Prod.fst) :=
      List.mem_flatMap.mpr ⟨r, hr, hk⟩
    rcases foGo_complete strEq strEq_iff _ [] k h2 with h3 | h3
    · simp at h3
    · exact h3

theorem getVal_some_mem_keys (r : List (String × JValue)) (k : String) (v : JValue)
    (h : getVal r k = some v) : k ∈ r.map Prod.fst := by
  cases hl : List.lookup k r with
  | none => simp [getVal, hl] at h
  | some w =>
    have h1 : (List.lookup k r).isSome := by rw [hl]; rfl
    rcases List.lookup_isSome_iff.mp h1 with ⟨p, hp, hkp⟩
    exact List.mem_map.mpr ⟨p, hp, (beq_iff_eq.mp hkp).symm⟩

theorem getVal_eq_none_lookup (r : List (String × JValue)) (k : String)
    (hk : k ∈ r.map Prod.fst) (h : getVal r k = none) :
    List.lookup k r = some JValue.null := by
  have h1 : (List.lookup k r).isSome := by
    apply List.lookup_isSome_iff.mpr
    rcases List.mem_map.mp hk with ⟨p, hp, hpk⟩
    refine ⟨p, hp, ?_⟩
    rw [hpk]
    exact beq_self_eq_true k
  cases hl : List.lookup k r with
  | none => rw [hl] at h1; simp at h1
  | some w =>
    cases w with
    | null => rfl
    | bool b => simp [getVal, hl] at h
    | num q => simp [getVal, hl] at h
    | str s => simp [getVal, hl] at h
    | list xs => simp [getVal, hl] at h
    | obj fs => simp [getVal, hl] at h

theorem lookup_mem (r : List (String × JValue)) (k : String) (v : JValue)
    (h : List.lookup k r = some v) : (k, v) ∈ r := by
  rcases List.lookup_eq_some_iff.mp h with ⟨l1, l2, heq, _⟩
  rw [heq]
  simp

theorem mergeValue_num_sample (v0 : JValue) (vs : List JValue)
    (h : isNumTag v0 = true) :
    mergeValue (v0 :: vs) =
      (pySum (v0 :: vs)).map
        (fun s => JValue.num (s / (((v0 :: vs).length : ℕ) : ℚ))) := by
  simp [mergeValue, h]

theorem mergeValue_obj_sample (o : List (String × JValue)) (vs : List JValue) :
    mergeValue (JValue.obj o :: vs) = some (JValue.obj o) := by
  simp [mergeValue, isNumTag, isListTag, isStrTag]

theorem toNum_eq_none_iff (v : JValue) : toNum? v = none ↔ isNumTag v = false := by
  cases v <;> simp [toNum?, isNumTag]

theorem pySum_all_num (l : List JValue) (h : ∀ v ∈ l, isNumTag v = true) :
    pySum l = some ((l.filterMap toNum?).sum) := by
  induction l with
  | nil => rfl
  | cons v l ih =>
    have hv := h v (List.mem_cons_self v l)
    obtain ⟨q, hq⟩ : ∃ q, toNum? v = some q := by
      cases v <;> simp [toNum?, isNumTag] at hv ⊢
    have ih2 := ih (fun w hw => h w (List.mem_cons_of_mem v hw))
    simp [pySum, hq, ih2, List.filterMap_cons]

theorem pySum_none (l : List JValue) (h : ∃ v ∈ l, isNumTag v = false) :
    pySum l = none := by
  induction l with
  | nil => simp at h
  | cons v l ih =>
    rcases h with ⟨w, hw, hwf⟩
    rcases List.mem_cons.mp hw with h1 | h1
    · have hvn : toNum? v = none := (toNum_eq_none_iff v).mpr (h1 ▸ hwf)
      simp [pySum, hvn]
    · have hrec := ih ⟨w, h1, hwf⟩
      cases htv : toNum? v <;> simp [pySum, htv, hrec]

/-! ## Claim C2: numeric field merge -/

/-- C2 counterexample: a non-numeric contribution to an otherwise-numeric
field is not ignored: summing it raises a TypeError that escapes the
merge (modelled as `none`), whereas the claim promises the mean of the
numeric contributions. -/
theorem C2_counterexample :
    merge_extractions [[("total", JValue.num 100)], [("total", JValue.str "x")]] =
      none := rfl

/-- C2 amended: for a field whose first non-null contributed value is
numeric (Python counts booleans as numeric), the merged value is the sum
of all the non-null contributions divided by their number, with booleans
contributing 1 or 0; a contribution that cannot be added to a number
(string, list, record, null) makes the merge raise a TypeError
instead of being ignored. -/
theorem C2_numeric_merge_amended (results : List (List (String × JValue)))
    (k : String) (v0 : JValue) (vs : List JValue)
    (h2 : 2 ≤ results.length) (hg : gatherVals results k = v0 :: vs)
    (hnum : isNumTag v0 = true) :
    ((∀ v ∈ v0 :: vs, isNumTag v = true) →
      ∀ m, merge_extractions results = some m →
        (k, JValue.num (((v0 :: vs).filterMap toNum?).sum /
          (((v0 :: vs).length : ℕ) : ℚ))) ∈ m) ∧
    ((∃ v ∈ v0 :: vs, isNumTag v = false) → merge_extractions results = none) := by
  obtain ⟨r1, r2, rest, rfl⟩ : ∃ r1 r2 rest, results = r1 :: r2 :: rest := by
    cases results with
    | nil => simp at h2
    | cons a as =>
      cases as with
      | nil => simp at h2
      | cons b bs => exact ⟨a, b, bs, rfl⟩
  have hka : k ∈ firstOccsBy strEq
      ((r1 :: r2 :: rest).flatMap (fun r => r.map Prod.fst)) := by
    apply (mem_allKeys_iff _ k).mpr
    have hv0 : v0 ∈ gatherVals (r1 :: r2 :: rest) k := by
      rw [hg]
      exact List.mem_cons_self _ _
    rcases List.mem_filterMap.mp hv0 with ⟨r, hr, hgv⟩
    exact ⟨r, hr, getVal_some_mem_keys r k v0 hgv⟩
  constructor
  · intro hall m hm
    rw [merge_extractions_eq] at hm
    apply optMapM_mem_of _ _ m hm k _ hka
    rw [hg, mergeValue_num_sample v0 vs hnum, pySum_all_num _ hall]
    rfl
  · intro hex
    rw [merge_extractions_eq]
    apply optMapM_none _ _ k hka
    rw [hg, mergeValue_num_sample v0 vs hnum, pySum_none _ hex]
    rfl

/-- Evaluation witness for the amended C2 at the specification example. -/
theorem C2_numeric_merge_amended_witness :
    2 ≤ c2Results.length ∧
    gatherVals c2Results "total" = JValue.num 100 :: [JValue.num 200, JValue.num 300] ∧
    isNumTag (JValue.num 100) = true ∧
    (∀ v ∈ JValue.num 100 :: [JValue.num 200, JValue.num 300], isNumTag v = true) ∧
    ("total", JValue.num
        (((JValue.num 100 :: [JValue.num 200, JValue.num 300]).filterMap toNum?).sum /
          ((((JValue.num 100 :: [JValue.num 200, JValue.num 300]).length : ℕ)) : ℚ))) ∈
      [("total", JValue.num 200)] := by
  have hall : ∀ v ∈ JValue.num 100 :: [JValue.num 200, JValue.num 300],
      isNumTag v = true := by
    intro v hv
    simp only [List.mem_cons, List.not_mem_nil, or_false] at hv
    rcases hv with rfl | rfl | rfl <;> rfl
  have hmerge : merge_extractions c2Results = some [("total", JValue.num 200)] := by
    simp [c2Results, merge_extractions, optMapM, gatherVals, getVal, mergeValue, pySum,
      toNum?, isNumTag, isListTag, isStrTag, firstOccsBy, foGo, strEq, List.lookup]
    norm_num
  refine ⟨by simp [c2Results], rfl, rfl, hall, ?_⟩
  exact (C2_numeric_merge_amended c2Results "total" (JValue.num 100)
      [JValue.num 200, JValue.num 300] (by simp [c2Results]) rfl rfl).1
      hall [("total", JValue.num 200)] hmerge

/-! ## Claim C4: merged key set -/

/-- C4 counterexample: for votes within the specified vote domain (values
are null, number, string, or list), the merge can raise a TypeError, so
there is no merged result whose key set could equal the union of the
input key sets. -/
theorem C4_counterexample :
    merge_extractions [[("amount", JValue.num 5)], [("amount", JValue.list [])]] =
      none := rfl

/-- C4 amended: whenever the merge of a non-empty vote list completes
without raising, the key set of the merged result equals the union of the
key sets of all input votes, and a field present in some vote but with no
non-null contribution is bound to null in the merged result. -/
theorem C4_key_union_amended (results : List (List (String × JValue)))
    (m : List (String × JValue)) (hne : results ≠ [])
    (hm : merge_extractions results = some m) :
    (∀ k, k ∈ m.map Prod.fst ↔ ∃ r ∈ results, k ∈ r.map Prod.fst) ∧
    (∀ k, (∃ r ∈ results, k ∈ r.map Prod.fst) → gatherVals results k = [] →
      (k, JValue.null) ∈ m) := by
  cases results with
  | nil => exact absurd rfl hne
  | cons r rest =>
    cases rest with
    | nil =>
      have hmr : r = m := by simpa [merge_extractions] using hm
      subst hmr
      constructor
      · intro k
        simp
      · intro k hk hg
        obtain ⟨r', hr', hk'⟩ := hk
        have hr2 : r' = r := by simpa using hr'
        subst hr2
        have hgv : getVal r' k = none := by
          have := List.filterMap_eq_nil_iff.mp hg
          exact this r' (List.mem_cons_self r' [])
        exact lookup_mem r' k JValue.null (getVal_eq_none_lookup r' k hk' hgv)
    | cons r2 rest2 =>
      rw [merge_extractions_eq] at hm
      have hkeys := optMapM_keys _ _ m hm
      constructor
      · intro k
        rw [hkeys]
        exact mem_allKeys_iff _ k
      · intro k hk hg
        have hka : k ∈ firstOccsBy strEq
            ((r :: r2 :: rest2).flatMap (fun s => s.map Prod.fst)) :=
          (mem_allKeys_iff _ k).mpr hk
        apply optMapM_mem_of _ _ m hm k JValue.null hka
        rw [hg]
        rfl

/-- Evaluation witness for the amended C4 at a concrete two-vote merge. -/
theorem C4_key_union_amended_witness :
    c4Results ≠ [] ∧ merge_extractions c4Results = some c4Merged ∧
    ((∀ k, k ∈ c4Merged.map Prod.fst ↔ ∃ r ∈ c4Results, k ∈ r.map Prod.fst) ∧
     (∀ k, (∃ r ∈ c4Results, k ∈ r.map Prod.fst) → gatherVals c4Results k = [] →
       (k, JValue.null) ∈ c4Merged)) := by
  have hmerge : merge_extractions c4Results = some c4Merged := by
    simp [c4Results, c4Merged, merge_extractions, optMapM, gatherVals, getVal, mergeValue,
      pySum, toNum?, isNumTag, isListTag, isStrTag, firstOccsBy, foGo, strEq, List.lookup,
      pyCounterMostCommon, firstMaxBy, countOcc, isHashable, pyEq]
    norm_num
  exact ⟨by simp [c4Results], hmerge,
    C4_key_union_amended c4Results c4Merged (by simp [c4Results]) hmerge⟩

/-! ## Claim C8: first-value fallback -/

/-- C8 counterexample: a boolean first contribution is treated as numeric
by the merge (Python bool is an int), so two boolean votes are averaged
into 0.5 instead of the first value being kept unmodified. -/
theorem C8_counterexample :
    merge_extractions [[("flag", JValue.bool true)], [("flag", JValue.bool false)]] =
      some [("flag", JValue.num (1/2))] ∧
    ("flag", JValue.bool true) ∉ [("flag", JValue.num (1/2))] := by
  constructor
  · simp [merge_extractions, optMapM, gatherVals, getVal, mergeValue, pySum,
      toNum?, isNumTag, isListTag, isStrTag, firstOccsBy, foGo, strEq, List.lookup]
  · simp

/-- C8 amended: in a merge of two or more votes, for every field whose
first non-null contributed value is a nested record (the only runtime
shape that is neither numeric-including-boolean, nor a list, nor a
string), the merged value is that first non-null contribution,
unmodified. -/
theorem C8_first_value_amended (results : List (List (String × JValue)))
    (k : String) (o : List (String × JValue)) (vs : List JValue)
    (h2 : 2 ≤ results.length)
    (hg : gatherVals results k = JValue.obj o :: vs)
    (m : List (String × JValue)) (hm : merge_extractions results = some m) :
    (k, JValue.obj o) ∈ m := by
  obtain ⟨r1, r2, rest, rfl⟩ : ∃ r1 r2 rest, results = r1 :: r2 :: rest := by
    cases results with
    | nil => simp at h2
    | cons a as =>
      cases as with
      | nil => simp at h2
      | cons b bs => exact ⟨a, b, bs, rfl⟩
  have hka : k ∈ firstOccsBy strEq
      ((r1 :: r2 :: rest).flatMap (fun r => r.map Prod.fst)) := by
    apply (mem_allKeys_iff _ k).mpr
    have hv0 : JValue.obj o ∈ gatherVals (r1 :: r2 :: rest) k := by
      rw [hg]
      exact List.mem_cons_self _ _
    rcases List.mem_filterMap.mp hv0 with ⟨r, hr, hgv⟩
    exact ⟨r, hr, getVal_some_mem_keys r k _ hgv⟩
  rw [merge_extractions_eq] at hm
  apply optMapM_mem_of _ _ m hm k _ hka
  rw [hg, mergeValue_obj_sample]

/-- Evaluation witness for the amended C8 at a concrete two-vote merge. -/
theorem C8_first_value_amended_witness :
    2 ≤ c8Results.length ∧
    gatherVals c8Results "cfg" =
      JValue.obj [("a", JValue.num 1)] :: [JValue.obj [("b", JValue.num 2)]] ∧
    merge_extractions c8Results = some [("cfg", JValue.obj [("a", JValue.num 1)])] ∧
    ("cfg", JValue.obj [("a", JValue.num 1)]) ∈
      [("cfg", JValue.obj [("a", JValue.num 1)])] := by
  have hmerge : merge_extractions c8Results =
      some [("cfg", JValue.obj [("a", JValue.num 1)])] := by
    simp [c8Results, merge_extractions, optMapM, gatherVals, getVal, mergeValue, pySum,
      toNum?, isNumTag, isListTag, isStrTag, firstOccsBy, foGo, strEq, List.lookup]
  exact ⟨by simp [c8Results], rfl, hmerge,
    C8_first_value_amended c8Results "cfg" [("a", JValue.num 1)]
      [JValue.obj [("b", JValue.num 2)]] (by simp [c8Results]) rfl _ hmerge⟩


/-! ## Claim C6: confidence validation -/

/-- C6 counterexample: a confidence of 1.5 (outside [0,1]) is passed
through unchanged rather than rejected, and a missing confidence silently
defaults to 0.5 rather than failing. -/
theorem C6_counterexample :
    classify_parse c6Resp = some (JValue.str "invoice", 3/2) ∧
    classify_parse c6RespMissing = some (JValue.str "invoice", 1/2) := by
  constructor <;> rfl

/-- C6 amended: the classify response handling applies no range check to
the confidence: a missing confidence key silently defaults to 0.5; any
value that float() can convert, including values outside [0,1], is passed
through unchanged; the call fails only when float() cannot convert the
value (null, list, record, or a non-numeric string). -/
theorem C6_confidence_amended (result : List (String × JValue)) :
    (List.lookup "confidence" result = none →
      classify_parse result =
        some ((List.lookup "type" result).getD (JValue.str "unknown"), 1/2)) ∧
    (∀ v q, List.lookup "confidence" result = some v → pyFloat v = some q →
      classify_parse result =
        some ((List.lookup "type" result).getD (JValue.str "unknown"), q)) ∧
    (∀ v, List.lookup "confidence" result = some v → pyFloat v = none →
      classify_parse result = none) := by
  refine ⟨?_, ?_, ?_⟩
  · intro h
    simp [classify_parse, h, pyFloat]
  · intro v q h hq
    simp [classify_parse, h, hq]
  · intro v h hv
    simp [classify_parse, h, hv]

/-- Evaluation witness for the amended C6 at three concrete responses:
a missing confidence, an out-of-range confidence, and a null confidence. -/
theorem C6_confidence_amended_witness :
    (List.lookup "confidence" c6RespMissing = none ∧
      classify_parse c6RespMissing = some (JValue.str "invoice", 1/2)) ∧
    (List.lookup "confidence" c6Resp = some (JValue.num (3/2)) ∧
      pyFloat (JValue.num (3/2)) = some (3/2) ∧
      classify_parse c6Resp = some (JValue.str "invoice", 3/2)) ∧
    (List.lookup "confidence" c6RespBad = some JValue.null ∧
      pyFloat JValue.null = none ∧
      classify_parse c6RespBad = none) :=
  ⟨⟨rfl, (C6_confidence_amended c6RespMissing).1 rfl⟩,
   ⟨rfl, rfl, (C6_confidence_amended c6Resp).2.1 (JValue.num (3/2)) (3/2) rfl rfl⟩,
   ⟨rfl, rfl, (C6_confidence_amended c6RespBad).2.2 JValue.null rfl rfl⟩⟩


/-! ## Helper lemmas about the flattening -/

theorem pyDict_mem (l : List (String × JValue)) (p : String × JValue)
    (h : p ∈ pyDict l) : p ∈ l := by
  induction l using pyDict.induct with
  | case1 => simp [pyDict] at h
  | case2 k v rest q hq ih =>
    simp only [pyDict, hq] at h
    rcases List.mem_cons.mp h with h1 | h1
    · have hqm : q ∈ List.filter (fun p => p.1 == k) rest :=
        List.mem_of_getLast?_eq_some hq
      have hqr : q ∈ rest := List.mem_of_mem_filter hqm
      have hqk : q.1 = k := by
        have := List.of_mem_filter hqm
        exact beq_iff_eq.mp this
      have : p = q := by
        rw [h1, ← hqk]
      rw [this]
      exact List.mem_cons_of_mem _ hqr
    · exact List.mem_cons_of_mem _ (List.mem_of_mem_filter (ih h1))
  | case3 k v rest hq ih =>
    simp only [pyDict, hq] at h
    rcases List.mem_cons.mp h with h1 | h1
    · exact h1 ▸ List.mem_cons_self _ _
    · exact List.mem_cons_of_mem _ (List.mem_of_mem_filter (ih h1))

theorem pyDict_nodup_id (l : List (String × JValue))
    (h : (l.map Prod.fst).Nodup) : pyDict l = l := by
  induction l using pyDict.induct with
  | case1 => simp [pyDict]
  | case2 k v rest q hq ih =>
    exfalso
    have hk : k ∉ rest.map Prod.fst := by
      rw [List.map_cons, List.nodup_cons] at h
      exact h.1
    have hnil : List.filter (fun p => p.1 == k) rest = [] := by
      apply List.filter_eq_nil_iff.mpr
      intro p hp hc
      exact hk (List.mem_map.mpr ⟨p, hp, beq_iff_eq.mp hc⟩)
    rw [hnil] at hq
    simp at hq
  | case3 k v rest hq ih =>
    have hk : k ∉ rest.map Prod.fst := by
      rw [List.map_cons, List.nodup_cons] at h
      exact h.1
    have hfil : List.filter (fun p => p.1 != k) rest = rest := by
      apply List.filter_eq_self.mpr
      intro p hp
      have : p.1 ≠ k := fun hc => hk (List.mem_map.mpr ⟨p, hp, hc⟩)
      simpa using this
    have htl : (rest.map Prod.fst).Nodup := by
      rw [List.map_cons, List.nodup_cons] at h
      exact h.2
    rw [hfil] at ih
    simp only [pyDict, hq, hfil]
    rw [ih htl]

theorem flatItems_no_obj (d : List (String × JValue)) (parent sep : String) :
    ∀ p ∈ flatItems d parent sep, isObjTag p.2 = false := by
  induction d, parent, sep using flatItems.induct with
  | case1 parent sep =>
    intro p hp
    simp [flatItems] at hp
  | case2 k o rest parent sep ih2 ih1 =>
    intro p hp
    simp only [flatItems] at hp
    rcases List.mem_append.mp hp with h1 | h1
    · exact ih2 p (pyDict_mem _ p h1)
    · exact ih1 p h1
  | case3 k xs rest parent sep ih1 =>
    intro p hp
    simp only [flatItems] at hp
    rcases List.mem_cons.mp hp with h1 | h1
    · rw [h1]
      rfl
    · exact ih1 p h1
  | case4 k v rest parent sep hno hnl ih1 =>
    intro p hp
    cases v with
    | obj o => exact absurd rfl (hno o)
    | list xs => exact absurd rfl (hnl xs)
    | null =>
      simp only [flatItems] at hp
      rcases List.mem_cons.mp hp with h1 | h1
      · rw [h1]; rfl
      · exact ih1 p h1
    | bool b =>
      simp only [flatItems] at hp
      rcases List.mem_cons.mp hp with h1 | h1
      · rw [h1]; rfl
      · exact ih1 p h1
    | num q =>
      simp only [flatItems] at hp
      rcases List.mem_cons.mp hp with h1 | h1
      · rw [h1]; rfl
      · exact ih1 p h1
    | str s =>
      simp only [flatItems] at hp
      rcases List.mem_cons.mp hp with h1 | h1
      · rw [h1]; rfl
      · exact ih1 p h1

theorem flatItems_cons_sub (hd : String × JValue) (rest : List (String × JValue))
    (parent sep : String) :
    ∀ q ∈ flatItems rest parent sep, q ∈ flatItems (hd :: rest) parent sep := by
  intro q hq
  obtain ⟨hk, hv⟩ := hd
  cases hv with
  | obj o =>
    simp only [flatItems]
    exact List.mem_append_right _ hq
  | list xs =>
    simp only [flatItems]
    exact List.mem_cons_of_mem _ hq
  | null =>
    simp only [flatItems]
    exact List.mem_cons_of_mem _ hq
  | bool b =>
    simp only [flatItems]
    exact List.mem_cons_of_mem _ hq
  | num n =>
    simp only [flatItems]
    exact List.mem_cons_of_mem _ hq
  | str s =>
    simp only [flatItems]
    exact List.mem_cons_of_mem _ hq

theorem flatItems_mem_of (d : List (String × JValue)) (parent sep : String)
    (k : String) (v : JValue) (hkv : (k, v) ∈ d) :
    (∀ o, v = JValue.obj o →
      ∀ p ∈ pyDict (flatItems o (joinKey parent sep k) sep),
        p ∈ flatItems d parent sep) ∧
    (∀ xs, v = JValue.list xs →
      (joinKey parent sep k, JValue.str (jsonDumps (JValue.list xs))) ∈
        flatItems d parent sep) ∧
    (isObjTag v = false → isListTag v = false →
      (joinKey parent sep k, v) ∈ flatItems d parent sep) := by
  induction d with
  | nil => simp at hkv
  | cons hd rest ih =>
    rcases List.mem_cons.mp hkv with h1 | h1
    · rw [← h1]
      cases v with
      | obj o =>
        refine ⟨?_, ?_, ?_⟩
        · intro o2 ho2 p hp
          have ho : o2 = o := by
            injection ho2 with h
            exact h.symm
          rw [ho] at hp
          simp only [flatItems]
          exact List.mem_append_left _ hp
        · intro xs hxs
          simp at hxs
        · intro hobj _
          simp [isObjTag] at hobj
      | list xs =>
        refine ⟨?_, ?_, ?_⟩
        · intro o2 ho2
          simp at ho2
        · intro xs2 hxs2
          have hx : xs2 = xs := by
            injection hxs2 with h
            exact h.symm
          rw [hx]
          simp only [flatItems]
          exact List.mem_cons_self _ _
        · intro _ hlist
          simp [isListTag] at hlist
      | null =>
        refine ⟨fun o2 ho2 => by simp at ho2, fun xs2 hxs2 => by simp at hxs2, ?_⟩
        intro _ _
        simp only [flatItems]
        exact List.mem_cons_self _ _
      | bool b =>
        refine ⟨fun o2 ho2 => by simp at ho2, fun xs2 hxs2 => by simp at hxs2, ?_⟩
        intro _ _
        simp only [flatItems]
        exact List.mem_cons_self _ _
      | num n =>
        refine ⟨fun o2 ho2 => by simp at ho2, fun xs2 hxs2 => by simp at hxs2, ?_⟩
        intro _ _
        simp only [flatItems]
        exact List.mem_cons_self _ _
      | str s =>
        refine ⟨fun o2 ho2 => by simp at ho2, fun xs2 hxs2 => by simp at hxs2, ?_⟩
        intro _ _
        simp only [flatItems]
        exact List.mem_cons_self _ _
    · have ihr := ih h1
      refine ⟨?_, ?_, ?_⟩
      · intro o ho p hp
        exact flatItems_cons_sub hd rest parent sep _ (ihr.1 o ho p hp)
      · intro xs hxs
        exact flatItems_cons_sub hd rest parent sep _ (ihr.2.1 xs hxs)
      · intro h2 h3
        exact flatItems_cons_sub hd rest parent sep _ (ihr.2.2 h2 h3)

/-! ## Claim C10: dictionary flattening -/

/-- C10 counterexample: a separator collision loses a binding.  In
`\x7b"a": \x7b"b": 1\x7d, "a_b": 2\x7d` both the nested `b` and the
top-level `a_b` flatten to the key `a_b`; `dict(items)` keeps only the
later value 2, so the nested primitive value 1 is not kept under its
joined key as the claim requires. -/
theorem C10_counterexample :
    flatten_dict [("a", JValue.obj [("b", JValue.num 1)]), ("a_b", JValue.num 2)]
        "" "_" = [("a_b", JValue.num 2)] ∧
    ("a_b", JValue.num 1) ∉
      flatten_dict [("a", JValue.obj [("b", JValue.num 1)]), ("a_b", JValue.num 2)]
        "" "_" := by
  have h : flatten_dict [("a", JValue.obj [("b", JValue.num 1)]), ("a_b", JValue.num 2)]
      "" "_" = [("a_b", JValue.num 2)] := by
    simp [flatten_dict, flatItems, pyDict, joinKey]
  refine ⟨h, ?_⟩
  rw [h]
  simp

/-- C10 amended: provided the flattened item keys are pairwise distinct
(the separator introduces no key collisions), `flatten_dict` returns a
dictionary containing no dictionary values, in which every binding of the
flattening of a nested dictionary appears under its parent-joined key,
every list value appears as its JSON string serialization under its
joined key, and every other value appears unchanged under its joined
key. -/
theorem C10_flatten_amended (d : List (String × JValue)) (parent sep : String)
    (hnd : ((flatItems d parent sep).map Prod.fst).Nodup) :
    (∀ p ∈ flatten_dict d parent sep, isObjTag p.2 = false) ∧
    (∀ k v, (k, v) ∈ d →
      (∀ o, v = JValue.obj o →
        ∀ p ∈ flatten_dict o (joinKey parent sep k) sep,
          p ∈ flatten_dict d parent sep) ∧
      (∀ xs, v = JValue.list xs →
        (joinKey parent sep k, JValue.str (jsonDumps (JValue.list xs))) ∈
          flatten_dict d parent sep) ∧
      (isObjTag v = false → isListTag v = false →
        (joinKey parent sep k, v) ∈ flatten_dict d parent sep)) := by
  have hid : flatten_dict d parent sep = flatItems d parent sep :=
    pyDict_nodup_id _ hnd
  constructor
  · intro p hp
    rw [hid] at hp
    exact flatItems_no_obj d parent sep p hp
  · intro k v hkv
    have h3 := flatItems_mem_of d parent sep k v hkv
    refine ⟨?_, ?_, ?_⟩
    · intro o ho p hp
      rw [hid]
      exact h3.1 o ho p hp
    · intro xs hxs
      rw [hid]
      exact h3.2.1 xs hxs
    · intro h1 h2
      rw [hid]
      exact h3.2.2 h1 h2

/-- Evaluation witness for the amended C10 at a concrete nested document
with a primitive, a nested record, and a list. -/
theorem C10_flatten_amended_witness :
    ((flatItems c10Dict "" "_").map Prod.fst).Nodup ∧
    ((∀ p ∈ flatten_dict c10Dict "" "_", isObjTag p.2 = false) ∧
     (∀ k v, (k, v) ∈ c10Dict →
       (∀ o, v = JValue.obj o →
         ∀ p ∈ flatten_dict o (joinKey "" "_" k) "_",
           p ∈ flatten_dict c10Dict "" "_") ∧
       (∀ xs, v = JValue.list xs →
         (joinKey "" "_" k, JValue.str (jsonDumps (JValue.list xs))) ∈
           flatten_dict c10Dict "" "_") ∧
       (isObjTag v = false → isListTag v = false →
         (joinKey "" "_" k, v) ∈ flatten_dict c10Dict "" "_"))) := by
  have hnd : ((flatItems c10Dict "" "_").map Prod.fst).Nodup := by
    simp [c10Dict, flatItems, pyDict, joinKey]
  exact ⟨hnd, C10_flatten_amended c10Dict "" "_" hnd⟩

end DocPipeline
